import Mathlib

/-!
Shallow embedding of `src/blockchain/blockchain.ts` (a minimal blockchain
consensus core).  The module-level mutable state (`blockchain`,
`unspentTxOuts`) is modelled by explicit state passing through a `NodeState`
record.  The collaborators imported from other modules of the repository
(`Validator.isValidNewBlock`, `Validator.isValidChain`,
`Validator.hashMatchesDifficulty`, `Util.calculateHash`,
`processTransactions`, the clock) are not part of the given source; the
embedded operations take them as explicit function parameters, exactly in the
shape the TypeScript call sites use them.

Numeric conventions: block `index` and `nonce` are natural numbers (the code
only ever produces non-negative values for them), `timestamp` and
`difficulty` are integers (`difficulty - 1` in the retarget rule may go below
zero, and timestamps are differenced), and the accumulated difficulty
`2^difficulty` is a rational so that a negative difficulty still has the
JavaScript `Math.pow` meaning.  JavaScript array indexing `a[i]`, which
yields `undefined` out of range (and a hard `TypeError` as soon as a field of
the result is accessed), is modelled by `Option`-valued lookup `jsGet`;
embedded operations whose JavaScript original would crash return `none`.
-/

/-- Opaque transaction record; its contents are never inspected by the
consensus core, which only hands batches of them to the external payload
applier. -/
structure Transaction where
  id : Nat
deriving DecidableEq, Repr

/-- Opaque unspent-output record; the consensus core stores lists of these
but never looks inside. -/
structure UnspentTxOut where
  id : Nat
deriving DecidableEq, Repr

/-- The `Block` class of `blockchain.ts`: index, hash, previousHash,
timestamp, data (transaction payload), difficulty, nonce. -/
structure Block where
  index : Nat
  hash : String
  previousHash : String
  timestamp : Int
  data : List Transaction
  difficulty : Int
  nonce : Nat
deriving DecidableEq, Repr

/-- JavaScript array indexing with an integer index: `a[i]` is `undefined`
(here `none`) when `i` is negative or past the end. -/
def jsGet (l : List Block) (i : Int) : Option Block :=
  if i < 0 then none else l.get? i.toNat

/-- The hard-coded genesis block. -/
def genesisBlock : Block :=
  ⟨0, "816534932c2b7154836da6afc367695e6337db8a921823784c14378abed4f7d7", "0",
    1588310945, [], 0, 0⟩

/-- The module state: the canonical chain `blockchain` and the derived
balance-set snapshot `unspentTxOuts`. -/
structure NodeState where
  blockchain : List Block
  unspentTxOuts : List UnspentTxOut
deriving DecidableEq, Repr

/-- Process-start state: `blockchain = [genesisBlock]`, empty snapshot. -/
def initialState : NodeState := ⟨[genesisBlock], []⟩

/-- `getBlockchain` returns the canonical chain. -/
def getBlockchain (s : NodeState) : List Block := s.blockchain

/-- `getLatestBlock`: `blockchain[blockchain.length - 1]` (on the empty
array this is `blockchain[-1]`, i.e. `undefined`). -/
def getLatestBlock (c : List Block) : Option Block :=
  jsGet c ((c.length : Int) - 1)

/-- `BLOCK_GENERATION_INTERVAL` (seconds between blocks). -/
def BLOCK_GENERATION_INTERVAL : Int := 10

/-- `DIFFICULTY_ADJUSTMENT_INTERVAL` (blocks between retargets). -/
def DIFFICULTY_ADJUSTMENT_INTERVAL : Nat := 10

/-- `getAdjustedDifficulty(latestBlock, aBlockchain)`.  Note that the source
indexes `aBlockchain` with the length of the module-global `blockchain`
(`aBlockchain[blockchain.length - DIFFICULTY_ADJUSTMENT_INTERVAL]`), so the
global chain is an explicit first parameter here.  `timeExpected / 2` is
exact (`100 / 2 = 50`), so integer division agrees with the JavaScript float
division.  Returns `none` where the JavaScript would crash on an
out-of-range lookup. -/
def getAdjustedDifficulty (blockchain : List Block) (latestBlock : Block)
    (aBlockchain : List Block) : Option Int :=
  match jsGet aBlockchain ((blockchain.length : Int) - (DIFFICULTY_ADJUSTMENT_INTERVAL : Int)) with
  | none => none
  | some prevAdjustmentBlock =>
    let timeExpected : Int := BLOCK_GENERATION_INTERVAL * (DIFFICULTY_ADJUSTMENT_INTERVAL : Int)
    let timeTaken : Int := latestBlock.timestamp - prevAdjustmentBlock.timestamp
    if timeTaken < timeExpected / 2 then
      some (prevAdjustmentBlock.difficulty + 1)
    else if timeTaken > timeExpected * 2 then
      some (prevAdjustmentBlock.difficulty - 1)
    else
      some prevAdjustmentBlock.difficulty

/-- `getDifficulty(aBlockchain)`.  The source reads the latest block as
`aBlockchain[blockchain.length - 1]`, again using the module-global chain's
length, so the global chain is an explicit first parameter. -/
def getDifficulty (blockchain : List Block) (aBlockchain : List Block) : Option Int :=
  match jsGet aBlockchain ((blockchain.length : Int) - 1) with
  | none => none
  | some latestBlock =>
    if latestBlock.index % DIFFICULTY_ADJUSTMENT_INTERVAL = 0 ∧ latestBlock.index ≠ 0 then
      getAdjustedDifficulty blockchain latestBlock aBlockchain
    else
      some latestBlock.difficulty

/-- The per-block work term `Math.pow(2, difficulty)`, as a rational so a
negative difficulty keeps its JavaScript meaning. -/
def blockWork (b : Block) : ℚ := (2 : ℚ) ^ b.difficulty

/-- `getAccumulatedDifficulty(aBlockchain)`: map each block to
`2^difficulty` and combine with a seedless `reduce((a, b) => a + b)`.  A
seedless reduce of an empty array throws a `TypeError`, modelled by
`none`. -/
def getAccumulatedDifficulty (aBlockchain : List Block) : Option ℚ :=
  match aBlockchain.map blockWork with
  | [] => none
  | w :: ws => some (ws.foldl (· + ·) w)

/-- Specification-level total sum of the per-block work terms; used in
theorem statements and proved to agree with `getAccumulatedDifficulty` on
every non-empty chain. -/
def accWork (c : List Block) : ℚ := (c.map blockWork).sum

/-- The nonce loop of `findBlock`, with explicit fuel standing in for the
unbounded `while (true)`: `none` means the fuel ran out before a qualifying
hash was found. -/
def findBlockAux (calculateHash : Nat → String → Int → List Transaction → Int → Nat → String)
    (hashMatchesDifficulty : String → Int → Bool)
    (index : Nat) (previousHash : String) (timestamp : Int)
    (data : List Transaction) (difficulty : Int) : Nat → Nat → Option Block
  | _, 0 => none
  | nonce, fuel + 1 =>
    let hash := calculateHash index previousHash timestamp data difficulty nonce
    if hashMatchesDifficulty hash difficulty then
      some ⟨index, hash, previousHash, timestamp, data, difficulty, nonce⟩
    else
      findBlockAux calculateHash hashMatchesDifficulty index previousHash timestamp data
        difficulty (nonce + 1) fuel

/-- `findBlock(index, previousHash, timestamp, data, difficulty)`: search
from `nonce = 0` upward for a hash satisfying the difficulty predicate. -/
def findBlock (calculateHash : Nat → String → Int → List Transaction → Int → Nat → String)
    (hashMatchesDifficulty : String → Int → Bool)
    (index : Nat) (previousHash : String) (timestamp : Int)
    (data : List Transaction) (difficulty : Int) (fuel : Nat) : Option Block :=
  findBlockAux calculateHash hashMatchesDifficulty index previousHash timestamp data
    difficulty 0 fuel

/-- `addBlockToChain(newBlock)`: validate against the latest block with the
external new-block validator; apply the payload with the external
`processTransactions` (its `null` result is `none`); on success push the
block and install the new snapshot.  Returns the boolean result paired with
the post state; the outer `none` marks the unreachable empty-chain crash. -/
def addBlockToChain
    (isValidNewBlock : Block → Block → Bool)
    (processTransactions : List Transaction → List UnspentTxOut → Nat → Option (List UnspentTxOut))
    (newBlock : Block) (s : NodeState) : Option (Bool × NodeState) :=
  match getLatestBlock s.blockchain with
  | none => none
  | some latest =>
    if isValidNewBlock newBlock latest then
      match processTransactions newBlock.data s.unspentTxOuts newBlock.index with
      | none => some (false, s)
      | some newUnspentTxOuts =>
        some (true, ⟨s.blockchain ++ [newBlock], newUnspentTxOuts⟩)
    else
      some (false, s)

/-- `replaceChain(newBlockchain)`: accept the candidate chain exactly when
the external chain validator passes it and its accumulated difficulty
strictly exceeds the current chain's.  The snapshot field is untouched, as
in the source.  `none` marks the crash of the seedless reduce on an empty
chain (only reachable when the validator passes an empty candidate, or the
current chain is empty). -/
def replaceChain (isValidChain : List Block → Bool) (newBlockchain : List Block)
    (s : NodeState) : Option NodeState :=
  if isValidChain newBlockchain then
    match getAccumulatedDifficulty newBlockchain, getAccumulatedDifficulty s.blockchain with
    | some newWork, some curWork =>
      if curWork < newWork then some { s with blockchain := newBlockchain } else some s
    | _, _ => none
  else
    some s

/-- `generateNextBlock(data)`: read the latest block, compute the next
difficulty, mine with `findBlock`, then run the append path; returns the new
block on success and `null` (inner `none`) when the append fails.  The outer
`none` marks a crash or exhausted mining fuel. -/
def generateNextBlock
    (calculateHash : Nat → String → Int → List Transaction → Int → Nat → String)
    (hashMatchesDifficulty : String → Int → Bool)
    (isValidNewBlock : Block → Block → Bool)
    (processTransactions : List Transaction → List UnspentTxOut → Nat → Option (List UnspentTxOut))
    (now : Int) (data : List Transaction) (s : NodeState) (fuel : Nat) :
    Option (Option Block × NodeState) :=
  match getLatestBlock s.blockchain with
  | none => none
  | some previousBlock =>
    match getDifficulty s.blockchain s.blockchain with
    | none => none
    | some difficulty =>
      match findBlock calculateHash hashMatchesDifficulty (previousBlock.index + 1)
          previousBlock.hash now data difficulty fuel with
      | none => none
      | some newBlock =>
        match addBlockToChain isValidNewBlock processTransactions newBlock s with
        | none => none
        | some (true, s₂) => some (some newBlock, s₂)
        | some (false, s₂) => some (none, s₂)

/-- Modelled from the spec: the balance-set snapshot obtained by folding
every block's payload of a chain in chain order, starting from the empty
snapshot, using the external payload applier (`processTransactions` lives
outside the given source).  Used only to compare against what `replaceChain`
actually leaves in the snapshot. -/
def deriveSnapshot
    (processTransactions : List Transaction → List UnspentTxOut → Nat → Option (List UnspentTxOut)) :
    List Block → List UnspentTxOut → Option (List UnspentTxOut)
  | [], u => some u
  | b :: bs, u =>
    match processTransactions b.data u b.index with
    | none => none
    | some u₂ => deriveSnapshot processTransactions bs u₂

/-- Convenience constructor for concrete test blocks: only index, timestamp
and difficulty matter to the difficulty engine and fork choice. -/
def mkBlock (index : Nat) (timestamp difficulty : Int) : Block :=
  ⟨index, "", "", timestamp, [], difficulty, 0⟩

/-- 5-block chain with difficulties 4,4,4,4,5 (accumulated work 96). -/
def chainA : List Block :=
  [mkBlock 0 0 4, mkBlock 1 0 4, mkBlock 2 0 4, mkBlock 3 0 4, mkBlock 4 0 5]

/-- 2-block chain with difficulties 6,6 (accumulated work 128). -/
def chainB : List Block :=
  [mkBlock 0 0 6, mkBlock 1 0 6]

/-- Candidate chain heavier than `[genesisBlock]`, used to exercise a
successful replacement. -/
def cex2Chain : List Block := [genesisBlock, mkBlock 1 0 1]

/-- A payload applier that produces a nonempty snapshot on every block,
making the rederived snapshot of any chain observably differ from the empty
one. -/
def cex2Applier : List Transaction → List UnspentTxOut → Nat → Option (List UnspentTxOut) :=
  fun _ _ _ => some [⟨7⟩]

/-- Module-global chain of length 10 used to show that the difficulty
retarget indexes the argument chain by the global chain's length. -/
def cex5Global : List Block := List.replicate 10 (mkBlock 0 0 0)

/-- 11-block argument chain: position 0 has difficulty 0, position 1 (the
position the claim designates as `prevAdjustmentBlock`) has difficulty 5,
the latest block (index 10) has timestamp 100. -/
def cex5Chain : List Block :=
  [mkBlock 0 0 0, mkBlock 1 0 5, mkBlock 2 0 0, mkBlock 3 0 0, mkBlock 4 0 0,
   mkBlock 5 0 0, mkBlock 6 0 0, mkBlock 7 0 0, mkBlock 8 0 0, mkBlock 9 0 0,
   mkBlock 10 100 0]

/-- Latest block of `cex5Chain`. -/
def cex5Latest : Block := mkBlock 10 100 0

/-- 2-block argument chain whose latest block (index 1, not a multiple of
the adjustment interval) has difficulty 5 while position 0 has difficulty
0; paired with the length-1 global chain `[genesisBlock]` it shows
`getDifficulty` reading the wrong block. -/
def cex6Chain : List Block := [mkBlock 0 0 0, mkBlock 1 0 5]

/-- 11-block chain (all timestamps 0 except the latest at 100, all
difficulties 3) used as both the global and the argument chain in the
retarget witness. -/
def wit5Chain : List Block :=
  [mkBlock 0 0 3, mkBlock 1 0 3, mkBlock 2 0 3, mkBlock 3 0 3, mkBlock 4 0 3,
   mkBlock 5 0 3, mkBlock 6 0 3, mkBlock 7 0 3, mkBlock 8 0 3, mkBlock 9 0 3,
   mkBlock 10 100 3]

/-- Two-block chain for the `getDifficulty` witness: latest index 1,
difficulty 7. -/
def wit6Chain : List Block := [mkBlock 0 0 0, mkBlock 1 0 7]

/-- Digest stub for the mining witness: only nonce 2 yields the qualifying
string. -/
def wit8Hash : Nat → String → Int → List Transaction → Int → Nat → String :=
  fun _ _ _ _ _ nonce => if nonce == 2 then "y" else "n"

/-- Difficulty predicate stub accepting exactly the string "y". -/
def wit8Pred : String → Int → Bool :=
  fun h _ => h == "y"

/-- Constant digest stub for the block-generation witness. -/
def witHashConst : Nat → String → Int → List Transaction → Int → Nat → String :=
  fun _ _ _ _ _ _ => "h"

/-- Difficulty predicate accepting everything (difficulty 0 accepts any
hash, and the witness mines at difficulty 0). -/
def witPredTrue : String → Int → Bool := fun _ _ => true

/-- New-block validator stub accepting everything. -/
def vAccept : Block → Block → Bool := fun _ _ => true

/-- New-block validator stub rejecting everything. -/
def vReject : Block → Block → Bool := fun _ _ => false

/-- Payload applier stub that keeps the snapshot unchanged. -/
def pKeep : List Transaction → List UnspentTxOut → Nat → Option (List UnspentTxOut) :=
  fun _ u _ => some u

/-- Chain validator stub accepting everything. -/
def chainAccept : List Block → Bool := fun _ => true

/-- The block `generateNextBlock` mines on top of the genesis block at
difficulty 0: nonce 0 succeeds immediately, so the hash is the digest of
the fields at nonce 0. -/
def minedAtZero (calculateHash : Nat → String → Int → List Transaction → Int → Nat → String)
    (now : Int) : Block :=
  ⟨1, calculateHash 1 genesisBlock.hash now [] 0 0, genesisBlock.hash, now, [], 0, 0⟩

theorem foldl_add_eq (l : List ℚ) (a : ℚ) : l.foldl (· + ·) a = a + l.sum := by
  induction l generalizing a with
  | nil => simp
  | cons x t ih => simp [ih, List.sum_cons]; ring

theorem getAccumulatedDifficulty_cons (b : Block) (c : List Block) :
    getAccumulatedDifficulty (b :: c) = some (accWork (b :: c)) := by
  simp [getAccumulatedDifficulty, accWork, foldl_add_eq]

theorem getAccumulatedDifficulty_eq_some {c : List Block} (h : c ≠ []) :
    getAccumulatedDifficulty c = some (accWork c) := by
  cases c with
  | nil => exact absurd rfl h
  | cons b t => exact getAccumulatedDifficulty_cons b t

theorem ne_nil_of_acc_some {c : List Block} {q : ℚ}
    (h : getAccumulatedDifficulty c = some q) : c ≠ [] := by
  rintro rfl
  simp [getAccumulatedDifficulty] at h

theorem accWork_append (c : List Block) (b : Block) :
    accWork (c ++ [b]) = accWork c + blockWork b := by
  simp [accWork]

theorem blockWork_pos (b : Block) : 0 < blockWork b :=
  zpow_pos (by norm_num) _

theorem get?_append_length (l : List Block) (b : Block) :
    (l ++ [b]).get? l.length = some b := by
  induction l with
  | nil => rfl
  | cons x t ih => simp [ih]

theorem getLatestBlock_append (l : List Block) (b : Block) :
    getLatestBlock (l ++ [b]) = some b := by
  have h1 : ¬ (((l ++ [b]).length : Int) - 1 < 0) := by
    simp
  have h2 : (((l ++ [b]).length : Int) - 1).toNat = l.length := by
    simp
  rw [getLatestBlock, jsGet, if_neg h1, h2]
  exact get?_append_length l b

theorem ne_nil_of_getLatestBlock {c : List Block} {x : Block}
    (h : getLatestBlock c = some x) : c ≠ [] := by
  rintro rfl
  simp [getLatestBlock, jsGet] at h

/-- C7: `getAccumulatedDifficulty` is the sum over all blocks of
`2^difficulty` (on any non-empty chain, here any cons); it strictly
increases when a block is appended; the 5-block chain with difficulties
4,4,4,4,5 yields 96 and the 2-block chain with difficulties 6,6 yields
128; and `replaceChain` installs the 2-block chain over the 5-block
chain. -/
theorem accumulatedDifficulty_work :
    (∀ b c, getAccumulatedDifficulty (b :: c) = some (accWork (b :: c))) ∧
    (∀ b c b₂, (getAccumulatedDifficulty (b :: c)).getD 0 <
      (getAccumulatedDifficulty (b :: (c ++ [b₂]))).getD 0) ∧
    getAccumulatedDifficulty chainA = some 96 ∧
    getAccumulatedDifficulty chainB = some 128 ∧
    replaceChain chainAccept chainB ⟨chainA, []⟩ = some ⟨chainB, []⟩ := by
  have hA : getAccumulatedDifficulty chainA = some 96 := by
    norm_num [getAccumulatedDifficulty, chainA, blockWork, mkBlock]
  have hB : getAccumulatedDifficulty chainB = some 128 := by
    norm_num [getAccumulatedDifficulty, chainB, blockWork, mkBlock]
  refine ⟨getAccumulatedDifficulty_cons, ?_, hA, hB, ?_⟩
  · intro b c b₂
    rw [getAccumulatedDifficulty_cons, getAccumulatedDifficulty_cons]
    have h : b :: (c ++ [b₂]) = (b :: c) ++ [b₂] := by simp
    rw [h, Option.getD_some, Option.getD_some, accWork_append]
    exact lt_add_of_pos_right _ (blockWork_pos b₂)
  · simp only [replaceChain, chainAccept, if_true, hA, hB]
    norm_num

/-- C10: the seedless reduce in `getAccumulatedDifficulty` fails (models the
JavaScript `TypeError` as `none`) exactly on the empty chain and succeeds on
every non-empty chain; the precondition is maintained by the program: the
initial chain is non-empty, a successful or failed append leaves a non-empty
chain, and a replacement never installs an empty chain. -/
theorem accumulatedDifficulty_totality :
    getAccumulatedDifficulty ([] : List Block) = none ∧
    (∀ b c, (getAccumulatedDifficulty (b :: c)).isSome = true) ∧
    initialState.blockchain ≠ [] ∧
    (∀ v p b s r s₂, addBlockToChain v p b s = some (r, s₂) → s₂.blockchain ≠ []) ∧
    (∀ v n s s₂, s.blockchain ≠ [] → replaceChain v n s = some s₂ → s₂.blockchain ≠ []) := by
  refine ⟨rfl, ?_, by simp [initialState], ?_, ?_⟩
  · intro b c
    rw [getAccumulatedDifficulty_cons]
    rfl
  · intro v p b s r s₂ h
    cases hl : getLatestBlock s.blockchain with
    | none => simp [addBlockToChain, hl] at h
    | some latest =>
      cases hv : v b latest with
      | false =>
        simp [addBlockToChain, hl, hv] at h
        obtain ⟨-, h₂⟩ := h
        subst h₂
        exact ne_nil_of_getLatestBlock hl
      | true =>
        cases hp : p b.data s.unspentTxOuts b.index with
        | none =>
          simp [addBlockToChain, hl, hv, hp] at h
          obtain ⟨-, h₂⟩ := h
          subst h₂
          exact ne_nil_of_getLatestBlock hl
        | some u =>
          simp [addBlockToChain, hl, hv, hp] at h
          obtain ⟨-, h₂⟩ := h
          subst h₂
          simp
  · intro v n s s₂ hne h
    cases hv : v n with
    | false =>
      simp [replaceChain, hv] at h
      subst h
      exact hne
    | true =>
      cases hn : getAccumulatedDifficulty n with
      | none =>
        cases hc : getAccumulatedDifficulty s.blockchain with
        | none => simp [replaceChain, hv, hn, hc] at h
        | some b => simp [replaceChain, hv, hn, hc] at h
      | some a =>
        cases hc : getAccumulatedDifficulty s.blockchain with
        | none => simp [replaceChain, hv, hn, hc] at h
        | some b =>
          by_cases hlt : b < a
          · simp [replaceChain, hv, hn, hc, hlt] at h
            subst h
            exact ne_nil_of_acc_some hn
          · simp [replaceChain, hv, hn, hc, hlt] at h
            subst h
            exact hne

theorem accumulatedDifficulty_totality_witness :
    (⟨[genesisBlock, mkBlock 1 0 0], []⟩ : NodeState).blockchain ≠ [] :=
  accumulatedDifficulty_totality.2.2.2.1 vAccept pKeep (mkBlock 1 0 0) initialState true
    ⟨[genesisBlock, mkBlock 1 0 0], []⟩ (by decide)

/-- C1: `replaceChain` installs a candidate chain exactly when the chain
validator accepts it and its accumulated difficulty strictly exceeds the
current chain's; an invalid candidate, a tie, or a lighter candidate leaves
the state unchanged.  Both chains are required non-empty (the seedless
reduce of `getAccumulatedDifficulty` crashes on an empty chain, see the
totality theorem; the canonical chain is never empty). -/
theorem replaceChain_fork_choice (v : List Block → Bool) (n : List Block) (s : NodeState)
    (hcur : s.blockchain ≠ []) (hnew : n ≠ []) :
    (v n = true ∧ accWork s.blockchain < accWork n →
      replaceChain v n s = some { s with blockchain := n }) ∧
    (v n = false ∨ accWork n ≤ accWork s.blockchain →
      replaceChain v n s = some s) := by
  have hn := getAccumulatedDifficulty_eq_some hnew
  have hc := getAccumulatedDifficulty_eq_some hcur
  constructor
  · rintro ⟨hv, hlt⟩
    simp [replaceChain, hv, hn, hc, hlt]
  · rintro (hv | hle)
    · simp [replaceChain, hv]
    · have hnlt : ¬ accWork s.blockchain < accWork n := not_lt.mpr hle
      cases hvb : v n with
      | false => simp [replaceChain, hvb]
      | true => simp [replaceChain, hvb, hn, hc, hnlt]

theorem replaceChain_fork_choice_witness :
    replaceChain chainAccept chainB initialState = some { initialState with blockchain := chainB } :=
  (replaceChain_fork_choice chainAccept chainB initialState (by decide) (by decide)).1
    ⟨rfl, by norm_num [accWork, initialState, chainB, genesisBlock, blockWork, mkBlock]⟩

/-- C2: the code violates this claim.  A successful `replaceChain` installs
the candidate chain and broadcasts, but leaves `unspentTxOuts` exactly as it
was instead of rederiving it from the new chain's payload history: here the
snapshot rederived by folding the installed chain's payloads is `[⟨7⟩]`,
while the post-replacement state still carries the old empty snapshot. -/
theorem replaceChain_snapshot_not_rederived :
    replaceChain chainAccept cex2Chain initialState = some ⟨cex2Chain, []⟩ ∧
    deriveSnapshot cex2Applier cex2Chain [] = some [⟨7⟩] ∧
    (⟨cex2Chain, []⟩ : NodeState).unspentTxOuts ≠ [⟨7⟩] := by
  have hn : getAccumulatedDifficulty cex2Chain = some 3 := by
    norm_num [getAccumulatedDifficulty, cex2Chain, blockWork, genesisBlock, mkBlock]
  have hc : getAccumulatedDifficulty [genesisBlock] = some 1 := by
    norm_num [getAccumulatedDifficulty, blockWork, genesisBlock]
  have h13 : (1 : ℚ) < 3 := by norm_num
  refine ⟨?_, rfl, by decide⟩
  simp [replaceChain, chainAccept, hn, hc, h13, initialState]

/-- Equation for `addBlockToChain` once the latest block is known. -/
theorem addBlockToChain_eq_of_latest (v : Block → Block → Bool)
    (p : List Transaction → List UnspentTxOut → Nat → Option (List UnspentTxOut))
    (b : Block) (s : NodeState) (latest : Block)
    (hl : getLatestBlock s.blockchain = some latest) :
    addBlockToChain v p b s =
      if v b latest then
        match p b.data s.unspentTxOuts b.index with
        | none => some (false, s)
        | some u => some (true, ⟨s.blockchain ++ [b], u⟩)
      else some (false, s) := by
  unfold addBlockToChain
  rw [hl]

/-- C3: whenever `addBlockToChain` returns `false` — the new-block validator
rejected the candidate, or the payload application reported an
inconsistency (`null`) — the chain and the balance-set snapshot are exactly
as before the call. -/
theorem addBlockToChain_reject_atomic :
    (∀ v p b s s₂, addBlockToChain v p b s = some (false, s₂) → s₂ = s) ∧
    (∀ v p b s latest, getLatestBlock s.blockchain = some latest →
      v b latest = false → addBlockToChain v p b s = some (false, s)) ∧
    (∀ v p b s latest, getLatestBlock s.blockchain = some latest →
      v b latest = true → p b.data s.unspentTxOuts b.index = none →
      addBlockToChain v p b s = some (false, s)) := by
  refine ⟨?_, ?_, ?_⟩
  · intro v p b s s₂ h
    cases hl : getLatestBlock s.blockchain with
    | none => simp [addBlockToChain, hl] at h
    | some latest =>
      cases hv : v b latest with
      | false =>
        simp [addBlockToChain, hl, hv] at h
        exact h.symm
      | true =>
        cases hp : p b.data s.unspentTxOuts b.index with
        | none =>
          simp [addBlockToChain, hl, hv, hp] at h
          exact h.symm
        | some u =>
          simp [addBlockToChain, hl, hv, hp] at h
  · intro v p b s latest hl hv
    simp [addBlockToChain, hl, hv]
  · intro v p b s latest hl hv hp
    simp [addBlockToChain, hl, hv, hp]

theorem addBlockToChain_reject_atomic_witness :
    addBlockToChain vReject pKeep (mkBlock 1 0 0) initialState = some (false, initialState) :=
  addBlockToChain_reject_atomic.2.1 vReject pKeep (mkBlock 1 0 0) initialState genesisBlock
    (by decide) rfl

/-- C4: when the new-block validator accepts the candidate against the
current latest block and the payload application succeeds,
`addBlockToChain` returns `true`, the chain grows by exactly one block, the
latest block is the appended one, and the snapshot is replaced by the newly
derived one. -/
theorem addBlockToChain_accept (v : Block → Block → Bool)
    (p : List Transaction → List UnspentTxOut → Nat → Option (List UnspentTxOut))
    (b : Block) (s : NodeState) (latest : Block) (newU : List UnspentTxOut)
    (hl : getLatestBlock s.blockchain = some latest)
    (hv : v b latest = true)
    (hp : p b.data s.unspentTxOuts b.index = some newU) :
    addBlockToChain v p b s = some (true, ⟨s.blockchain ++ [b], newU⟩) ∧
    (s.blockchain ++ [b]).length = s.blockchain.length + 1 ∧
    getLatestBlock (s.blockchain ++ [b]) = some b := by
  refine ⟨?_, by simp, getLatestBlock_append _ _⟩
  simp [addBlockToChain, hl, hv, hp]

theorem addBlockToChain_accept_witness :
    addBlockToChain vAccept pKeep (mkBlock 1 0 0) initialState =
      some (true, ⟨[genesisBlock] ++ [mkBlock 1 0 0], []⟩) :=
  (addBlockToChain_accept vAccept pKeep (mkBlock 1 0 0) initialState genesisBlock []
    (by decide) rfl rfl).1

/-- C5 is false as stated: `getAdjustedDifficulty` indexes the argument
chain with the module-global chain's length.  With a global chain of length
10 and an 11-block argument chain, the code reads position 0 (difficulty 0)
instead of position `chainLength − adjustmentInterval = 1` (difficulty 5)
designated by the claim, and returns 0 where the claim's formula yields
5. -/
theorem getAdjustedDifficulty_cex :
    cex5Chain.get? (cex5Chain.length - 1) = some cex5Latest ∧
    cex5Latest.index % DIFFICULTY_ADJUSTMENT_INTERVAL = 0 ∧ cex5Latest.index ≠ 0 ∧
    cex5Chain.get? (cex5Chain.length - DIFFICULTY_ADJUSTMENT_INTERVAL) = some (mkBlock 1 0 5) ∧
    (if cex5Latest.timestamp - (mkBlock 1 0 5).timestamp <
        BLOCK_GENERATION_INTERVAL * (DIFFICULTY_ADJUSTMENT_INTERVAL : Int) / 2 then
        (mkBlock 1 0 5).difficulty + 1
      else if cex5Latest.timestamp - (mkBlock 1 0 5).timestamp >
        BLOCK_GENERATION_INTERVAL * (DIFFICULTY_ADJUSTMENT_INTERVAL : Int) * 2 then
        (mkBlock 1 0 5).difficulty - 1
      else (mkBlock 1 0 5).difficulty) = 5 ∧
    cex5Global.length = 10 ∧
    getAdjustedDifficulty cex5Global cex5Latest cex5Chain = some 0 ∧
    (0 : Int) ≠ 5 := by
  decide

/-- C5 (amended): when the module-global chain has the same length as the
argument chain — as at the sole call site, where the argument is the global
chain itself — `getAdjustedDifficulty` reads the block at position
`chainLength − adjustmentInterval` of the argument chain and returns its
difficulty raised by 1 when the window took less than half the expected
time, lowered by 1 when it took more than double, and unchanged otherwise;
the result always differs from that block's difficulty by at most 1. -/
theorem getAdjustedDifficulty_retarget (g c : List Block) (latest prev : Block)
    (hlen : g.length = c.length)
    (hlast : c.get? (c.length - 1) = some latest)
    (hmul : latest.index % DIFFICULTY_ADJUSTMENT_INTERVAL = 0 ∧ latest.index ≠ 0)
    (hge : DIFFICULTY_ADJUSTMENT_INTERVAL ≤ c.length)
    (hprev : c.get? (c.length - DIFFICULTY_ADJUSTMENT_INTERVAL) = some prev) :
    getAdjustedDifficulty g latest c =
      some (if latest.timestamp - prev.timestamp <
              BLOCK_GENERATION_INTERVAL * (DIFFICULTY_ADJUSTMENT_INTERVAL : Int) / 2 then
              prev.difficulty + 1
            else if latest.timestamp - prev.timestamp >
              BLOCK_GENERATION_INTERVAL * (DIFFICULTY_ADJUSTMENT_INTERVAL : Int) * 2 then
              prev.difficulty - 1
            else prev.difficulty) ∧
    ∀ r, getAdjustedDifficulty g latest c = some r → (r - prev.difficulty).natAbs ≤ 1 := by
  have h10 : DIFFICULTY_ADJUSTMENT_INTERVAL = 10 := rfl
  rw [h10] at hge hprev
  have hidx : jsGet c ((g.length : Int) - (DIFFICULTY_ADJUSTMENT_INTERVAL : Int)) = some prev := by
    simp only [jsGet, hlen, h10]
    rw [if_neg (by omega)]
    have ht : ((c.length : Int) - ((10 : Nat) : Int)).toNat = c.length - 10 := by omega
    rw [ht]
    exact hprev
  have heq : getAdjustedDifficulty g latest c =
      some (if latest.timestamp - prev.timestamp <
              BLOCK_GENERATION_INTERVAL * (DIFFICULTY_ADJUSTMENT_INTERVAL : Int) / 2 then
              prev.difficulty + 1
            else if latest.timestamp - prev.timestamp >
              BLOCK_GENERATION_INTERVAL * (DIFFICULTY_ADJUSTMENT_INTERVAL : Int) * 2 then
              prev.difficulty - 1
            else prev.difficulty) := by
    unfold getAdjustedDifficulty
    rw [hidx]
    show (if latest.timestamp - prev.timestamp <
            BLOCK_GENERATION_INTERVAL * (DIFFICULTY_ADJUSTMENT_INTERVAL : Int) / 2 then
            some (prev.difficulty + 1)
          else if latest.timestamp - prev.timestamp >
            BLOCK_GENERATION_INTERVAL * (DIFFICULTY_ADJUSTMENT_INTERVAL : Int) * 2 then
            some (prev.difficulty - 1)
          else some prev.difficulty) = _
    split_ifs <;> rfl
  refine ⟨heq, ?_⟩
  intro r hr
  rw [heq] at hr
  rw [← Option.some.inj hr]
  split_ifs <;> omega

theorem getAdjustedDifficulty_retarget_witness :
    getAdjustedDifficulty wit5Chain (mkBlock 10 100 3) wit5Chain = some 3 := by
  have h := getAdjustedDifficulty_retarget wit5Chain wit5Chain (mkBlock 10 100 3) (mkBlock 1 0 3)
    rfl (by decide) (by decide) (by decide) (by decide)
  rw [h.1]
  decide

/-- C6 is false as stated: `getDifficulty` reads the "latest block" at
position `globalLength − 1` of the argument chain.  With the global chain at
its initial length 1 and a 2-block argument chain whose latest block (index
1, not a retarget point) has difficulty 5, the code reads position 0 and
returns its difficulty 0 instead of the latest block's own difficulty 5. -/
theorem getDifficulty_cex :
    cex6Chain.get? (cex6Chain.length - 1) = some (mkBlock 1 0 5) ∧
    ¬((mkBlock 1 0 5).index % DIFFICULTY_ADJUSTMENT_INTERVAL = 0 ∧ (mkBlock 1 0 5).index ≠ 0) ∧
    (mkBlock 1 0 5).difficulty = 5 ∧
    getDifficulty [genesisBlock] cex6Chain = some 0 ∧
    (0 : Int) ≠ 5 := by
  decide

/-- C6 (amended): when the module-global chain has the same length as the
argument chain — as at the sole call site, where the argument is the global
chain itself — `getDifficulty` returns `getAdjustedDifficulty` exactly when
the chain's latest block's index is a nonzero multiple of the adjustment
interval, and the latest block's own difficulty otherwise; in particular a
latest block of index 0 (genesis) never triggers adjustment. -/
theorem getDifficulty_policy (g c : List Block) (latest : Block)
    (hlen : g.length = c.length)
    (hlast : c.get? (c.length - 1) = some latest) :
    getDifficulty g c =
      (if latest.index % DIFFICULTY_ADJUSTMENT_INTERVAL = 0 ∧ latest.index ≠ 0 then
        getAdjustedDifficulty g latest c
      else some latest.difficulty) ∧
    (latest.index = 0 → getDifficulty g c = some latest.difficulty) := by
  have hne : c ≠ [] := by
    rintro rfl
    simp at hlast
  have hpos : 0 < c.length := List.length_pos.mpr hne
  have hidx : jsGet c ((g.length : Int) - 1) = some latest := by
    simp only [jsGet, hlen]
    rw [if_neg (by omega)]
    have ht : ((c.length : Int) - 1).toNat = c.length - 1 := by omega
    rw [ht]
    exact hlast
  have heq : getDifficulty g c =
      (if latest.index % DIFFICULTY_ADJUSTMENT_INTERVAL = 0 ∧ latest.index ≠ 0 then
        getAdjustedDifficulty g latest c
      else some latest.difficulty) := by
    unfold getDifficulty
    rw [hidx]
  refine ⟨heq, fun h0 => ?_⟩
  rw [heq, if_neg (by rintro ⟨-, hx⟩; exact hx h0)]

theorem getDifficulty_policy_witness :
    getDifficulty wit6Chain wit6Chain = some 7 := by
  have h := getDifficulty_policy wit6Chain wit6Chain (mkBlock 1 0 7) rfl (by decide)
  rw [h.1]
  decide

theorem findBlockAux_sound
    (ch : Nat → String → Int → List Transaction → Int → Nat → String)
    (hm : String → Int → Bool)
    (i : Nat) (ph : String) (ts : Int) (d : List Transaction) (df : Int) :
    ∀ fuel start b, findBlockAux ch hm i ph ts d df start fuel = some b →
      b.index = i ∧ b.previousHash = ph ∧ b.timestamp = ts ∧ b.data = d ∧
      b.difficulty = df ∧ b.hash = ch i ph ts d df b.nonce ∧
      hm b.hash df = true ∧ start ≤ b.nonce ∧
      ∀ n, start ≤ n → n < b.nonce → hm (ch i ph ts d df n) df = false := by
  intro fuel
  induction fuel with
  | zero =>
    intro start b h
    simp [findBlockAux] at h
  | succ k ih =>
    intro start b h
    simp only [findBlockAux] at h
    by_cases hb : hm (ch i ph ts d df start) df = true
    · rw [if_pos hb] at h
      obtain rfl := (Option.some.inj h).symm
      exact ⟨rfl, rfl, rfl, rfl, rfl, rfl, hb, le_refl _,
        fun n h1 h2 => absurd (lt_of_le_of_lt h1 h2) (lt_irrefl start)⟩
    · rw [if_neg hb] at h
      obtain ⟨h1, h2, h3, h4, h5, h6, h7, h8, h9⟩ := ih (start + 1) b h
      refine ⟨h1, h2, h3, h4, h5, h6, h7, by omega, ?_⟩
      intro n hn1 hn2
      by_cases he : n = start
      · subst he
        simp at hb
        exact hb
      · exact h9 n (by omega) hn2

/-- C8: whenever the nonce search of `findBlock` terminates, the returned
block carries exactly the requested index, previousHash, timestamp, payload
and difficulty, its hash is the digest of those fields with the returned
nonce, that hash satisfies the difficulty predicate, and — since the search
starts at nonce 0 and increments by 1 on each failure — every smaller nonce
fails the predicate. -/
theorem findBlock_sound
    (ch : Nat → String → Int → List Transaction → Int → Nat → String)
    (hm : String → Int → Bool)
    (i : Nat) (ph : String) (ts : Int) (d : List Transaction) (df : Int)
    (fuel : Nat) (b : Block)
    (h : findBlock ch hm i ph ts d df fuel = some b) :
    b.index = i ∧ b.previousHash = ph ∧ b.timestamp = ts ∧ b.data = d ∧
    b.difficulty = df ∧ b.hash = ch i ph ts d df b.nonce ∧
    hm b.hash df = true ∧
    ∀ n, n < b.nonce → hm (ch i ph ts d df n) df = false := by
  obtain ⟨h1, h2, h3, h4, h5, h6, h7, -, h9⟩ :=
    findBlockAux_sound ch hm i ph ts d df fuel 0 b h
  exact ⟨h1, h2, h3, h4, h5, h6, h7, fun n hn => h9 n (Nat.zero_le n) hn⟩

theorem findBlock_sound_witness :
    findBlock wit8Hash wit8Pred 3 "p" 7 [] 1 5 = some ⟨3, "y", "p", 7, [], 1, 2⟩ ∧
    wit8Pred (⟨3, "y", "p", 7, [], 1, 2⟩ : Block).hash 1 = true := by
  have h := findBlock_sound wit8Hash wit8Pred 3 "p" 7 [] 1 5 ⟨3, "y", "p", 7, [], 1, 2⟩
    (by decide)
  exact ⟨by decide, h.2.2.2.2.2.2.1⟩

/-- C9: from the initial chain `[Genesis]`, `generateNextBlock` with an
empty payload succeeds in one mining step — the difficulty for the next
block is 0 and difficulty 0 accepts any hash — and yields a block of index 1
whose previousHash is the genesis block's hash; and, for any payload,
whenever the append path reports failure, `generateNextBlock` returns null
(the inner `none`) and the state the append left. -/
theorem generateNextBlock_spec :
    (∀ (ch : Nat → String → Int → List Transaction → Int → Nat → String)
        (hm : String → Int → Bool) (v : Block → Block → Bool)
        (p : List Transaction → List UnspentTxOut → Nat → Option (List UnspentTxOut))
        (now : Int) (u₀ : List UnspentTxOut),
      (∀ h, hm h (0 : Int) = true) →
      (∀ b, v b genesisBlock = true) →
      p [] [] 1 = some u₀ →
      generateNextBlock ch hm v p now [] initialState 1 =
        some (some (minedAtZero ch now), ⟨[genesisBlock, minedAtZero ch now], u₀⟩) ∧
      (minedAtZero ch now).index = 1 ∧
      (minedAtZero ch now).previousHash = genesisBlock.hash) ∧
    (∀ (ch : Nat → String → Int → List Transaction → Int → Nat → String)
        (hm : String → Int → Bool) (v : Block → Block → Bool)
        (p : List Transaction → List UnspentTxOut → Nat → Option (List UnspentTxOut))
        (now : Int) (data : List Transaction) (s : NodeState) (fuel : Nat)
        (prev : Block) (df : Int) (nb : Block) (s₂ : NodeState),
      getLatestBlock s.blockchain = some prev →
      getDifficulty s.blockchain s.blockchain = some df →
      findBlock ch hm (prev.index + 1) prev.hash now data df fuel = some nb →
      addBlockToChain v p nb s = some (false, s₂) →
      generateNextBlock ch hm v p now data s fuel = some (none, s₂)) := by
  constructor
  · intro ch hm v p now u₀ hmd hv hp
    refine ⟨?_, rfl, rfl⟩
    have hlat : getLatestBlock [genesisBlock] = some genesisBlock := by decide
    have hdiff : getDifficulty [genesisBlock] [genesisBlock] = some 0 := by decide
    have hfind : findBlock ch hm (genesisBlock.index + 1) genesisBlock.hash now [] 0 1 =
        some (minedAtZero ch now) := by
      simp [findBlock, findBlockAux, hmd, minedAtZero, genesisBlock]
    have hadd : addBlockToChain v p (minedAtZero ch now) ⟨[genesisBlock], []⟩ =
        some (true, ⟨[genesisBlock, minedAtZero ch now], u₀⟩) := by
      simp [addBlockToChain, hlat, hv, minedAtZero, hp]
    simp [generateNextBlock, initialState, hlat, hdiff, hfind, hadd]
  · intro ch hm v p now data s fuel prev df nb s₂ h1 h2 h3 h4
    simp [generateNextBlock, h1, h2, h3, h4]

theorem generateNextBlock_spec_witness :
    generateNextBlock witHashConst witPredTrue vAccept pKeep 0 [] initialState 1 =
      some (some (minedAtZero witHashConst 0),
        ⟨[genesisBlock, minedAtZero witHashConst 0], []⟩) :=
  (generateNextBlock_spec.1 witHashConst witPredTrue vAccept pKeep 0 []
    (fun _ => rfl) (fun _ => rfl) rfl).1
